import Mathlib

/-!
Shallow embedding of the numerical core of MOOSE `imageOp.py`:
the resize-factor / resampling-shape pipeline (`get_resize_factor`,
`resample_image`) and the padded bounding-box crop
(`crop_image_using_mask`).  Machine floating point is modelled by exact
rational arithmetic; numpy's elementwise operations on 1-D arrays are
modelled with their broadcasting rule (equal lengths, or one operand of
length one); `np.round` is modelled with its round-half-to-even rule and
Python's `int()` with truncation toward zero.
-/

namespace MOOSE

/-- An n-dimensional numpy array: its shape together with the flattened
sample values.  `get_resize_factor` reads only `shape`; the samples are
carried so that data-independence can be stated. -/
structure NDArray where
  shape : List ℕ
  data : List ℚ
deriving DecidableEq

/-- A SimpleITK image, abstracted to its index-space extent (`GetSize`),
which is all the crop-box arithmetic reads. -/
structure SitkImage where
  size : List ℤ
deriving DecidableEq

/-- Elementwise numpy binary operation on 1-D arrays with broadcasting:
defined when the lengths agree or one operand has length one; otherwise
numpy raises a broadcast ValueError, modelled as `none`. -/
def bcast (f : ℚ → ℚ → ℚ) (a b : List ℚ) : Option (List ℚ) :=
  if a.length = b.length then some (List.zipWith f a b)
  else if a.length = 1 then some (b.map (f a.headI))
  else if b.length = 1 then some (a.map (fun x => f x b.headI))
  else none

/-- Rounding rule of `np.round`: nearest integer, ties to even. -/
def npRound (q : ℚ) : ℤ :=
  if q - ⌊q⌋ < 1 / 2 then ⌊q⌋
  else if 1 / 2 < q - ⌊q⌋ then ⌊q⌋ + 1
  else if ⌊q⌋ % 2 = 0 then ⌊q⌋ else ⌊q⌋ + 1

/-- Python `int()` on a float value: truncation toward zero. -/
def pyInt (q : ℚ) : ℤ := if q < 0 then -⌊-q⌋ else ⌊q⌋

/-- The shape of a numpy array as a rational vector, as it enters
elementwise float arithmetic. -/
def shapeQ (img : NDArray) : List ℚ := img.shape.map (fun n : ℕ => (n : ℚ))

/-- Embedding of `get_resize_factor(img, spacing, target_spacing)`
(imageOp.py lines 289-320): `resize_factor = old_spacing / new_spacing`;
`new_shape = np.round(img.shape * resize_factor)`; the returned factor is
recomputed as `new_shape / img.shape`.  The source performs no validation;
the only failure mode is a numpy broadcast error. -/
def get_resize_factor (img : NDArray) (spacing target_spacing : List ℚ) :
    Option (List ℚ) :=
  (bcast (· / ·) spacing target_spacing).bind fun resize_factor =>
    (bcast (· * ·) (shapeQ img) resize_factor).bind fun new_shape =>
      bcast (· / ·) (new_shape.map (fun q => ((npRound q : ℤ) : ℚ))) (shapeQ img)

/-- Embedding of the output-shape computation of `resample_image`
(imageOp.py lines 347-350): `new_shape = resize_factor * img.shape`
followed by `[int(x) for x in new_shape]`.  The result is the
`output_shape` handed to the interpolation kernel (`resize`, line 363);
`none` means a numpy broadcast error occurred before the kernel call. -/
def resample_new_shape (img : NDArray) (spacing target_spacing : List ℚ) :
    Option (List ℤ) :=
  (get_resize_factor img spacing target_spacing).bind fun resize_factor =>
    (bcast (· * ·) resize_factor (shapeQ img)).map fun new_shape =>
      new_shape.map pyInt

/-- Shape of the array returned by `resample_image`: the sitk array is
transposed before the shape computation and the resampled array is
transposed back (imageOp.py lines 343 and 372), so the array shape fed to
the pipeline is the reverse of the native one and the output shape is
reversed again. -/
def resample_output_shape (arr : NDArray) (spacing target_spacing : List ℚ) :
    Option (List ℤ) :=
  (resample_new_shape ⟨arr.shape.reverse, arr.data⟩ spacing target_spacing).map
    List.reverse

/-- Result of a successful resample_image call: the array shape of the
produced sitk image and the spacing set on it. -/
structure ResampledImage where
  shape : List ℤ
  spacing : List ℚ
deriving DecidableEq

/-- Embedding of the full resample_image pipeline (imageOp.py lines
339-386): the shape computation feeding the kernel (resample_new_shape,
on the transposed array), the back-transposition of the kernel output,
and the final SetSpacing(target_spacing) call (line 378).  The external
SimpleITK contract of SetSpacing raises a vector-length mismatch unless
the spacing list length equals the image dimension, which is the number
of axes of the kernel output. -/
def resample_image (arr : NDArray) (spacing target_spacing : List ℚ) :
    Option ResampledImage :=
  (resample_new_shape ⟨arr.shape.reverse, arr.data⟩ spacing target_spacing).bind
    fun new_shape =>
      if target_spacing.length = new_shape.length then
        some ⟨new_shape.reverse, target_spacing⟩
      else none

/-- Per-axis clamping of `crop_image_using_mask` (imageOp.py lines
237-244), for one axis with image extent `dim`, tight-box start `start`,
tight-box size `size` and padding `padding`:
`new_index = start - padding`; `new_size = size + padding`; where
`new_index <= 0` it is reset to `start`; where `new_index + new_size`
reaches `dim` the size becomes `size + (dim - (new_index + size))`. -/
def clampAxis (padding dim start size : ℤ) : ℤ × ℤ :=
  let new_index := start - padding
  let new_size := size + padding
  let new_index2 := if new_index ≤ 0 then start else new_index
  let new_size2 :=
    if dim ≤ new_index2 + new_size then size + (dim - (new_index2 + size))
    else new_size
  (new_index2, new_size2)

/-- The clamped bounding box (start indices, sizes) computed by
`crop_image_using_mask` from the image extent, the tight bounding box of
the selected label, and the padding constant. -/
def crop_box (img_dim bstart bsize : List ℤ) (padding : ℤ) :
    List ℤ × List ℤ :=
  (List.zipWith3 (fun d s z => clampAxis padding d s z) img_dim bstart bsize).unzip

/-- External contract of `SimpleITK.RegionOfInterest`: extracting a region
succeeds exactly when the region lies inside the image, and the extracted
image has the requested size. -/
def regionOfInterest (img : SitkImage) (size index : List ℤ) :
    Option SitkImage :=
  if size.length = img.size.length ∧ index.length = img.size.length ∧
      ∀ p ∈ List.zipWith3 (fun d i s => (d, i, s)) img.size index size,
        0 ≤ p.2.1 ∧ 0 ≤ p.2.2 ∧ p.2.1 + p.2.2 ≤ p.1
  then some ⟨size⟩ else none

/-- Embedding of `crop_image_using_mask` (imageOp.py lines 221-247).  The
mask enters the computation only through the tight bounding box of the
requested label — `bstart`, `bsize`, the output of
`LabelShapeStatisticsImageFilter.GetBoundingBox` — and the source compares
the image and mask extents nowhere; the image contributes only its extent
`img.size`.  The clamped box is handed to `RegionOfInterest`. -/
def crop_image_using_mask (img mask : SitkImage) (bstart bsize : List ℤ)
    (padding : ℤ) : Option SitkImage :=
  let box := crop_box img.size bstart bsize padding
  regionOfInterest img box.2 box.1

lemma bcast_eq_zipWith (f : ℚ → ℚ → ℚ) (a b : List ℚ)
    (h : a.length = b.length) : bcast f a b = some (List.zipWith f a b) := by
  simp [bcast, h]

lemma bcast_exists (f : ℚ → ℚ → ℚ) (a b : List ℚ)
    (h : a.length = b.length ∨ b.length = 1) :
    ∃ l, bcast f a b = some l ∧ l.length = a.length := by
  by_cases h2 : a.length = b.length
  · exact ⟨_, bcast_eq_zipWith f a b h2, by simp [h2]⟩
  · have hb : b.length = 1 := by tauto
    have ha : a.length ≠ 1 := by omega
    refine ⟨a.map (fun x => f x b.headI), ?_, by simp⟩
    simp [bcast, h2, ha, hb]

lemma length_zipWith3 {α β γ δ : Type} (f : α → β → γ → δ) :
    ∀ (a : List α) (b : List β) (c : List γ),
      (List.zipWith3 f a b c).length = min a.length (min b.length c.length) := by
  intro a
  induction a with
  | nil => intro b c; simp [List.zipWith3]
  | cons x a ih =>
    intro b c
    cases b with
    | nil => simp [List.zipWith3]
    | cons y b =>
      cases c with
      | nil => simp [List.zipWith3]
      | cons z c => simp [List.zipWith3, ih]; omega

lemma npRound_intCast (z : ℤ) : npRound ((z : ℤ) : ℚ) = z := by
  rw [npRound, Int.floor_intCast]
  norm_num

lemma npRound_natCast (n : ℕ) : npRound ((n : ℕ) : ℚ) = (n : ℤ) := by
  rw [← Int.cast_natCast, npRound_intCast]

lemma npRound_nonpos (q : ℚ) (h : q ≤ 0) : npRound q ≤ 0 := by
  have hf : ⌊q⌋ ≤ 0 := by
    have := Int.floor_le_floor h
    simpa using this
  have hfq : (⌊q⌋ : ℚ) ≤ q := Int.floor_le q
  rw [npRound]
  split_ifs with h1 h2 h3
  · exact hf
  · have : (⌊q⌋ : ℚ) ≤ q - 1 / 2 := by linarith
    have : (⌊q⌋ : ℚ) < 0 := by linarith
    have : ⌊q⌋ < 0 := by exact_mod_cast this
    omega
  · exact hf
  · have : (⌊q⌋ : ℚ) ≤ q - 1 / 2 := by linarith
    have : (⌊q⌋ : ℚ) < 0 := by linarith
    have : ⌊q⌋ < 0 := by exact_mod_cast this
    omega

lemma pyInt_intCast (z : ℤ) : pyInt ((z : ℤ) : ℚ) = z := by
  rw [pyInt]
  split_ifs with h
  · rw [← Int.cast_neg, Int.floor_intCast]; omega
  · exact Int.floor_intCast z

lemma zipWith_div_round_mul (s : List ℕ) :
    ∀ a b : List ℚ,
      List.zipWith (· / ·)
        ((List.zipWith (· * ·) (s.map (fun n : ℕ => (n : ℚ)))
            (List.zipWith (· / ·) a b)).map (fun q => ((npRound q : ℤ) : ℚ)))
        (s.map (fun n : ℕ => (n : ℚ)))
      = List.zipWith3
          (fun (n : ℕ) x y => ((npRound ((n : ℚ) * x / y) : ℤ) : ℚ) / (n : ℚ))
          s a b := by
  induction s with
  | nil => intro a b; simp [List.zipWith3]
  | cons n s ih =>
    intro a b
    cases a with
    | nil => simp [List.zipWith3]
    | cons x a =>
      cases b with
      | nil => simp [List.zipWith3]
      | cons y b => simp [List.zipWith3, ih, mul_div_assoc]

lemma map_pyInt_mul_shape (s : List ℕ) :
    ∀ a b : List ℚ, (∀ n ∈ s, n ≠ 0) →
      (List.zipWith (· * ·)
          (List.zipWith3
            (fun (n : ℕ) x y => ((npRound ((n : ℚ) * x / y) : ℤ) : ℚ) / (n : ℚ))
            s a b)
          (s.map (fun n : ℕ => (n : ℚ)))).map pyInt
      = List.zipWith3 (fun (n : ℕ) x y => npRound ((n : ℚ) * x / y)) s a b := by
  induction s with
  | nil => intro a b _; simp [List.zipWith3]
  | cons n s ih =>
    intro a b hs
    cases a with
    | nil => simp [List.zipWith3]
    | cons x a =>
      cases b with
      | nil => simp [List.zipWith3]
      | cons y b =>
        have hn : ((n : ℚ)) ≠ 0 := by
          exact_mod_cast hs n (by simp)
        have hrest : ∀ m ∈ s, m ≠ 0 := fun m hm => hs m (by simp [hm])
        simp only [List.zipWith3, List.map, List.zipWith]
        rw [div_mul_cancel₀ _ hn, pyInt_intCast, ih a b hrest]

lemma get_resize_factor_spec (img : NDArray) (sp tg : List ℚ)
    (hs : sp.length = img.shape.length) (ht : tg.length = img.shape.length) :
    get_resize_factor img sp tg =
      some (List.zipWith3
        (fun (n : ℕ) x y => ((npRound ((n : ℚ) * x / y) : ℤ) : ℚ) / (n : ℚ))
        img.shape sp tg) := by
  have h1 : sp.length = tg.length := hs.trans ht.symm
  have hq : (shapeQ img).length = img.shape.length := by simp [shapeQ]
  rw [get_resize_factor, bcast_eq_zipWith _ _ _ h1, Option.some_bind,
    bcast_eq_zipWith _ _ _ (by simp [hq, hs, ht]), Option.some_bind,
    bcast_eq_zipWith _ _ _ (by simp [hq, hs, ht]), shapeQ]
  rw [zipWith_div_round_mul]

lemma resample_new_shape_spec (img : NDArray) (sp tg : List ℚ)
    (hs : sp.length = img.shape.length) (ht : tg.length = img.shape.length)
    (hpos : ∀ n ∈ img.shape, n ≠ 0) :
    resample_new_shape img sp tg =
      some (List.zipWith3 (fun (n : ℕ) x y => npRound ((n : ℚ) * x / y))
        img.shape sp tg) := by
  rw [resample_new_shape, get_resize_factor_spec img sp tg hs ht,
    Option.some_bind,
    bcast_eq_zipWith _ _ _ (by simp [shapeQ, length_zipWith3, hs, ht]),
    Option.map_some']
  rw [shapeQ, map_pyInt_mul_shape img.shape sp tg hpos]

lemma resample_new_shape_broadcast (img : NDArray) (sp tg : List ℚ)
    (hs : sp.length = img.shape.length)
    (h : tg.length = sp.length ∨ tg.length = 1) :
    ∃ l, resample_new_shape img sp tg = some l ∧
      l.length = img.shape.length := by
  have hq : (shapeQ img).length = img.shape.length := by simp [shapeQ]
  obtain ⟨f1, e1, l1⟩ := bcast_exists (· / ·) sp tg (by omega)
  obtain ⟨f2, e2, l2⟩ := bcast_exists (· * ·) (shapeQ img) f1 (by omega)
  obtain ⟨f3, e3, l3⟩ :=
    bcast_exists (· / ·) (f2.map (fun q => ((npRound q : ℤ) : ℚ))) (shapeQ img)
      (by simp [l2])
  obtain ⟨f4, e4, l4⟩ := bcast_exists (· * ·) f3 (shapeQ img)
    (by simp [l3, l2])
  refine ⟨f4.map pyInt, ?_, ?_⟩
  · simp [resample_new_shape, get_resize_factor, e1, e2, e3, e4]
  · simp only [List.length_map, l4, l3, l2, hq]

lemma getD_zipWith3 {α β γ δ : Type} (f : α → β → γ → δ)
    (da : α) (db : β) (dc : γ) (dd : δ) :
    ∀ (a : List α) (b : List β) (c : List γ) (i : ℕ),
      i < a.length → i < b.length → i < c.length →
      (List.zipWith3 f a b c).getD i dd =
        f (a.getD i da) (b.getD i db) (c.getD i dc) := by
  intro a
  induction a with
  | nil => intro b c i hi; simp at hi
  | cons x a ih =>
    intro b c i ha hb hc
    cases b with
    | nil => simp at hb
    | cons y b =>
      cases c with
      | nil => simp at hc
      | cons z c =>
        cases i with
        | zero => simp [List.zipWith3]
        | succ i =>
          have := ih b c i (by simpa using ha) (by simpa using hb)
            (by simpa using hc)
          simpa [List.zipWith3] using this

lemma zipWith3_same_div (s : List ℕ) :
    ∀ a : List ℚ, s.length = a.length → (∀ x ∈ a, x ≠ 0) →
      List.zipWith3 (fun (n : ℕ) x y => npRound ((n : ℚ) * x / y)) s a a
        = s.map (fun n : ℕ => (n : ℤ)) := by
  induction s with
  | nil => intro a _ _; simp [List.zipWith3]
  | cons n s ih =>
    intro a hl ha
    cases a with
    | nil => simp at hl
    | cons x a =>
      have hx : x ≠ 0 := ha x (by simp)
      have hrest : ∀ y ∈ a, y ≠ 0 := fun y hy => ha y (by simp [hy])
      simp only [List.zipWith3, List.map]
      rw [mul_div_cancel_right₀ _ hx, npRound_natCast,
        ih a (by simpa using hl) hrest]

lemma clampAxis_bounds (p d s z : ℤ) (hs : 0 ≤ s) :
    0 ≤ (clampAxis p d s z).1 ∧
      (clampAxis p d s z).1 + (clampAxis p d s z).2 ≤ d := by
  dsimp [clampAxis]
  split_ifs <;> constructor <;> omega

lemma crop_box_getD (p : ℤ) :
    ∀ (d s z : List ℤ) (i : ℕ), i < d.length → i < s.length → i < z.length →
      ((crop_box d s z p).1.getD i 0, (crop_box d s z p).2.getD i 0)
        = clampAxis p (d.getD i 0) (s.getD i 0) (z.getD i 0) := by
  intro d
  induction d with
  | nil => intro s z i hi; simp at hi
  | cons d0 d ih =>
    intro s z i hd hs hz
    cases s with
    | nil => simp at hs
    | cons s0 s =>
      cases z with
      | nil => simp at hz
      | cons z0 z =>
        cases i with
        | zero => simp [crop_box, List.zipWith3, List.unzip_cons]
        | succ i =>
          have := ih s z i (by simpa using hd) (by simpa using hs)
            (by simpa using hz)
          simpa [crop_box, List.zipWith3, List.unzip_cons] using this

/-- C1: for every array shape and positive spacings of matching axis count,
get_resize_factor returns per axis the recomputed factor
round(shape i * old spacing i / new spacing i) / shape i — the factor
derived from the rounded provisional shape — and not the first-pass factor
old spacing i / new spacing i. -/
theorem resize_factor_is_recomputed (img : NDArray)
    (spacing target_spacing : List ℚ)
    (hs : spacing.length = img.shape.length)
    (ht : target_spacing.length = img.shape.length)
    (_hsp : ∀ x ∈ spacing, 0 < x) (_htp : ∀ x ∈ target_spacing, 0 < x) :
    get_resize_factor img spacing target_spacing =
      some (List.zipWith3
        (fun (n : ℕ) o t => ((npRound ((n : ℚ) * o / t) : ℤ) : ℚ) / (n : ℚ))
        img.shape spacing target_spacing) :=
  get_resize_factor_spec img spacing target_spacing hs ht

theorem resize_factor_is_recomputed_witness :
    get_resize_factor ⟨[4], []⟩ [1] [2] = some [1 / 2] := by
  rw [resize_factor_is_recomputed ⟨[4], []⟩ [1] [2] rfl rfl (by norm_num)
    (by norm_num)]
  norm_num [List.zipWith3, npRound]

/-- C2: for every image with positive shape and positive spacings of
matching axis count, the output shape that resample_image passes to the
interpolation kernel equals, on each axis, the nearest integer (with the
ties-to-even rule of np.round) of shape i times old spacing i over target
spacing i. -/
theorem resample_kernel_shape_rounded (img : NDArray)
    (spacing target_spacing : List ℚ)
    (hs : spacing.length = img.shape.length)
    (ht : target_spacing.length = img.shape.length)
    (hshape : ∀ n ∈ img.shape, 0 < n)
    (_hsp : ∀ x ∈ spacing, 0 < x) (_htp : ∀ x ∈ target_spacing, 0 < x) :
    resample_new_shape img spacing target_spacing =
      some (List.zipWith3 (fun (n : ℕ) o t => npRound ((n : ℚ) * o / t))
        img.shape spacing target_spacing) :=
  resample_new_shape_spec img spacing target_spacing hs ht
    (fun n hn => (hshape n hn).ne')

theorem resample_kernel_shape_rounded_witness :
    resample_new_shape ⟨[4], []⟩ [1] [2] = some [2] := by
  rw [resample_kernel_shape_rounded ⟨[4], []⟩ [1] [2] rfl rfl (by decide)
    (by norm_num) (by norm_num)]
  norm_num [List.zipWith3, npRound]

/-- C3 counterexample: a negative target spacing entry does not make the
pipeline fail with a value error; the division yields a negative resize
factor and the kernel is invoked with output shape -4. -/
theorem negative_spacing_reaches_kernel_cex :
    ((-2 : ℚ) < 0) ∧ resample_new_shape ⟨[4], []⟩ [2] [-2] = some [-4] := by
  constructor
  · norm_num
  · have hf : Int.fract ((-4 : ℚ)) = 0 := by norm_num
    simp only [resample_new_shape, get_resize_factor, bcast, shapeQ, List.map,
      List.length, List.zipWith, List.headI, Option.bind]
    norm_num [npRound, pyInt, hf]

/-- C3 amended: resample_image performs no spacing validation; with a
negative entry in target_spacing the resize factor is negative and the
interpolation kernel is invoked with a non-positive output shape entry —
no value error precedes the kernel call. -/
theorem no_spacing_validation_negative_entry (img : NDArray)
    (spacing target_spacing : List ℚ)
    (hs : spacing.length = img.shape.length)
    (ht : target_spacing.length = img.shape.length)
    (hshape : ∀ n ∈ img.shape, 0 < n) (hsp : ∀ x ∈ spacing, 0 < x)
    (i : ℕ) (hi : i < img.shape.length)
    (hneg : target_spacing.getD i 0 < 0) :
    ∃ l, resample_new_shape img spacing target_spacing = some l ∧
      l.getD i 0 ≤ 0 := by
  refine ⟨_, resample_new_shape_spec img spacing target_spacing hs ht
    (fun n hn => (hshape n hn).ne'), ?_⟩
  rw [getD_zipWith3 _ 0 0 0 0 img.shape spacing target_spacing i hi
    (by omega) (by omega)]
  apply npRound_nonpos
  apply le_of_lt
  apply div_neg_of_pos_of_neg
  · have hmem : img.shape.getD i 0 ∈ img.shape := by
      rw [List.getD_eq_getElem _ _ hi]; exact List.getElem_mem _
    have hmem2 : spacing.getD i 0 ∈ spacing := by
      rw [List.getD_eq_getElem _ _ (by omega)]; exact List.getElem_mem _
    have h1 := hshape _ hmem
    have h2 := hsp _ hmem2
    have h1q : (0 : ℚ) < (img.shape.getD i 0 : ℚ) := by exact_mod_cast h1
    exact mul_pos h1q h2
  · exact hneg

theorem no_spacing_validation_negative_entry_witness :
    ∃ l, resample_new_shape ⟨[4], []⟩ [2] [-2] = some l ∧ l.getD 0 0 ≤ 0 :=
  no_spacing_validation_negative_entry ⟨[4], []⟩ [2] [-2] rfl rfl (by decide)
    (by norm_num) 0 (by decide) (by norm_num)

/-- C4 counterexample: with image extent 20, tight box start 15, size 3 and
padding 5 the code produces clamped size 8 on each axis, not 5: the start
also moves down by the padding, so the upper edge stays at 18 and no upper
clamp fires. -/
theorem upper_clamp_example_cex :
    (crop_box [20, 20, 20] [15, 15, 15] [3, 3, 3] 5).2 = [8, 8, 8] ∧
      (crop_box [20, 20, 20] [15, 15, 15] [3, 3, 3] 5).2 ≠ [5, 5, 5] := by
  constructor <;> norm_num [crop_box, clampAxis, List.zipWith3, List.unzip]

/-- C4 amended: with image extent (20,20,20), tight box start (15,15,15),
size (3,3,3) and padding 5, the clamped box has start (10,10,10) and size
(8,8,8); the upper edge 18 is below the extent, so no upper clamp fires
and the resulting region never exceeds the image extent. -/
theorem upper_clamp_example_box :
    crop_box [20, 20, 20] [15, 15, 15] [3, 3, 3] 5 =
      ([10, 10, 10], [8, 8, 8]) ∧
    crop_image_using_mask ⟨[20, 20, 20]⟩ ⟨[20, 20, 20]⟩ [15, 15, 15]
        [3, 3, 3] 5 = some ⟨[8, 8, 8]⟩ := by
  constructor
  · norm_num [crop_box, clampAxis, List.zipWith3, List.unzip]
  · norm_num [crop_image_using_mask, crop_box, clampAxis, regionOfInterest,
      List.zipWith3, List.unzip]

/-- C5: for every crop call whose tight bounding box lies inside the image
extent (as it does whenever the label is present and the mask extent
equals the image extent) and whose padding is non-negative, the clamped
box satisfies on every axis: start is non-negative and start plus size
does not exceed the image extent. -/
theorem crop_box_within_image_bounds (img_dim bstart bsize : List ℤ)
    (padding : ℤ)
    (h1 : bstart.length = img_dim.length) (h2 : bsize.length = img_dim.length)
    (_hp : 0 ≤ padding) (i : ℕ) (hi : i < img_dim.length)
    (hs0 : 0 ≤ bstart.getD i 0) (_hsz : 0 < bsize.getD i 0)
    (_hin : bstart.getD i 0 + bsize.getD i 0 ≤ img_dim.getD i 0) :
    0 ≤ (crop_box img_dim bstart bsize padding).1.getD i 0 ∧
      (crop_box img_dim bstart bsize padding).1.getD i 0 +
        (crop_box img_dim bstart bsize padding).2.getD i 0 ≤
        img_dim.getD i 0 := by
  have h := crop_box_getD padding img_dim bstart bsize i hi (by omega)
    (by omega)
  have hfst := congrArg Prod.fst h
  have hsnd := congrArg Prod.snd h
  simp only at hfst hsnd
  rw [hfst, hsnd]
  exact clampAxis_bounds padding (img_dim.getD i 0) (bstart.getD i 0)
    (bsize.getD i 0) hs0

theorem crop_box_within_image_bounds_witness :
    0 ≤ (crop_box [20, 20, 20] [15, 15, 15] [3, 3, 3] 5).1.getD 0 0 ∧
      (crop_box [20, 20, 20] [15, 15, 15] [3, 3, 3] 5).1.getD 0 0 +
        (crop_box [20, 20, 20] [15, 15, 15] [3, 3, 3] 5).2.getD 0 0 ≤
        ([20, 20, 20] : List ℤ).getD 0 0 :=
  crop_box_within_image_bounds [20, 20, 20] [15, 15, 15] [3, 3, 3] 5 rfl rfl
    (by norm_num) 0 (by norm_num) (by norm_num) (by norm_num) (by norm_num)

/-- C6: for every image with at least two axes, a resample_image call
whose target_spacing length differs from the image axis count fails with a
dimensionality-mismatch error: a length other than one fails in the numpy
broadcast of the spacing division, and a length-one target_spacing is
broadcast through the kernel but fails at SetSpacing, whose vector length
must equal the image dimension. -/
theorem spacing_length_mismatch_fails (img : NDArray)
    (spacing target_spacing : List ℚ)
    (hs : spacing.length = img.shape.length)
    (hdim : 2 ≤ img.shape.length)
    (hne : target_spacing.length ≠ img.shape.length) :
    resample_image img spacing target_spacing = none := by
  rw [resample_image]
  by_cases hk : target_spacing.length = 1
  · obtain ⟨l, hl, hlen⟩ := resample_new_shape_broadcast
      ⟨img.shape.reverse, img.data⟩ spacing target_spacing
      (by simpa using hs) (Or.inr hk)
    simp only at hlen
    rw [hl, Option.some_bind]
    have hne2 : ¬ target_spacing.length = l.length := by
      simp only [List.length_reverse] at hlen
      omega
    simp [hne2]
  · have h1 : spacing.length ≠ target_spacing.length := by omega
    have h2 : spacing.length ≠ 1 := by omega
    have hnone : bcast (· / ·) spacing target_spacing = none := by
      simp [bcast, h1, h2, hk]
    simp [resample_new_shape, get_resize_factor, hnone]

theorem spacing_length_mismatch_fails_witness :
    resample_image ⟨[4, 4, 4], []⟩ [1, 1, 1] [2] = none :=
  spacing_length_mismatch_fails ⟨[4, 4, 4], []⟩ [1, 1, 1] [2] rfl (by decide)
    (by decide)

/-- C7 counterexample: with image extent (100,100,100) and mask extent
(20,20,20) — differing extents — the crop succeeds and returns a cropped
image; no shape-mismatch error is raised. -/
theorem extent_mismatch_crop_succeeds_cex :
    ((⟨[20, 20, 20]⟩ : SitkImage) ≠ ⟨[100, 100, 100]⟩) ∧
      crop_image_using_mask ⟨[100, 100, 100]⟩ ⟨[20, 20, 20]⟩ [2, 2, 2]
        [3, 3, 3] 5 = some ⟨[8, 8, 8]⟩ := by
  constructor
  · decide
  · norm_num [crop_image_using_mask, crop_box, clampAxis, regionOfInterest,
      List.zipWith3, List.unzip]

/-- C7 amended: crop_image_using_mask compares the image and mask extents
nowhere; its result is entirely independent of the mask image, which
enters only through the tight bounding box of the requested label, so
differing extents raise no shape-mismatch error. -/
theorem crop_ignores_mask_extent (img mask1 mask2 : SitkImage)
    (bstart bsize : List ℤ) (padding : ℤ) :
    crop_image_using_mask img mask1 bstart bsize padding =
      crop_image_using_mask img mask2 bstart bsize padding := rfl

/-- C8: resampling with target spacing equal to the original spacing
returns an image whose array shape equals the input array shape. -/
theorem resample_identity_spacing_shape (arr : NDArray) (spacing : List ℚ)
    (hs : spacing.length = arr.shape.length)
    (hshape : ∀ n ∈ arr.shape, 0 < n) (hsp : ∀ x ∈ spacing, 0 < x) :
    resample_output_shape arr spacing spacing =
      some (arr.shape.map (fun n : ℕ => (n : ℤ))) := by
  rw [resample_output_shape,
    resample_new_shape_spec ⟨arr.shape.reverse, arr.data⟩ spacing spacing
      (by simpa using hs) (by simpa using hs)
      (fun n hn => (hshape n (List.mem_reverse.mp hn)).ne'),
    Option.map_some']
  rw [zipWith3_same_div arr.shape.reverse spacing (by simpa using hs.symm)
    (fun x hx => (hsp x hx).ne'), List.map_reverse, List.reverse_reverse]

theorem resample_identity_spacing_shape_witness :
    resample_output_shape ⟨[3, 5], []⟩ [2, 7] [2, 7] = some [3, 5] := by
  rw [resample_identity_spacing_shape ⟨[3, 5], []⟩ [2, 7] rfl (by decide)
    (by norm_num)]
  norm_num

/-- C9: with image extent (100,100,100), tight box start (2,2,2), size
(10,10,10) and padding 5, the lower clamp resets the start to (2,2,2) and
the size grows to (15,15,15); no upper clamp fires, and the crop returns
an image of size (15,15,15). -/
theorem lower_clamp_example_box :
    crop_box [100, 100, 100] [2, 2, 2] [10, 10, 10] 5 =
      ([2, 2, 2], [15, 15, 15]) ∧
    crop_image_using_mask ⟨[100, 100, 100]⟩ ⟨[100, 100, 100]⟩ [2, 2, 2]
        [10, 10, 10] 5 = some ⟨[15, 15, 15]⟩ := by
  constructor
  · norm_num [crop_box, clampAxis, List.zipWith3, List.unzip]
  · norm_num [crop_image_using_mask, crop_box, clampAxis, regionOfInterest,
      List.zipWith3, List.unzip]

/-- C10: get_resize_factor depends only on the array shape and the two
spacing vectors: two arrays with the same shape but different sample
values yield identical resize factors. -/
theorem resize_factor_ignores_samples (a b : NDArray)
    (spacing target_spacing : List ℚ) (h : a.shape = b.shape) :
    get_resize_factor a spacing target_spacing =
      get_resize_factor b spacing target_spacing := by
  simp [get_resize_factor, shapeQ, h]

theorem resize_factor_ignores_samples_witness :
    get_resize_factor ⟨[4], [1, 2, 3, 4]⟩ [1] [2] =
      get_resize_factor ⟨[4], [9, 9, 9, 9]⟩ [1] [2] :=
  resize_factor_ignores_samples ⟨[4], [1, 2, 3, 4]⟩ ⟨[4], [9, 9, 9, 9]⟩
    [1] [2] rfl

end MOOSE
